import Mathlib

/-!
Verification of the `bid-compare` ingestion/aggregation core (`src/logic.py`).

The Python code is shallowly embedded: DataFrame cells become `Option String`
(`none` models a pandas `NaN`), Python `dict`s become insertion-ordered
association lists with update-in-place semantics, and Python `float` parsing
is modelled exactly over `ℚ` (IEEE rounding and the special `inf`/`nan`/
underscore forms, which no bid cell exercises, are abstracted away).
-/

namespace BidCompare

/-! ## Python string primitives -/

/-- The character class trimmed by Python's `str.strip()` with no argument. -/
def pyWhitespace (c : Char) : Bool :=
  c = ' ' || c = '\t' || c = '\n' || c = '\r' || c = '\x0b' || c = '\x0c'

/-- Trim characters satisfying `p` from both ends of a character list,
as Python's `str.strip(chars)` does. -/
def stripChars (p : Char → Bool) (cs : List Char) : List Char :=
  ((cs.dropWhile p).reverse.dropWhile p).reverse

/-- Python `str.strip()` (no argument): trim whitespace from both ends. -/
def pyStrip (s : String) : String :=
  ⟨stripChars pyWhitespace s.data⟩

/-- Python `str.strip('" ')` as used on contractor-row cells
(`logic.py:44`): trim any mix of double quotes and spaces from both ends. -/
def stripQuoteSpace (s : String) : String :=
  ⟨stripChars (fun c => c = '"' || c = ' ') s.data⟩

/-- Python `str.replace("$", "").replace(",", "")` (`logic.py:93` etc.):
since both replacements delete single characters, this is removal of every
`$` and `,`. -/
def removeDollarComma (s : String) : String :=
  ⟨s.data.filter (fun c => !(c = '$' || c = ','))⟩

/-- Does `needle` occur at the head of `hay`? -/
def matchesAt : List Char → List Char → Bool
  | [], _ => true
  | _ :: _, [] => false
  | n :: ns, h :: hs => n = h && matchesAt ns hs

/-- Python's substring test `needle in hay` (also pandas
`str.contains` with a metacharacter-free pattern). -/
def containsSub (hay needle : List Char) : Bool :=
  match hay with
  | [] => needle.isEmpty
  | _ :: rest => matchesAt needle hay || containsSub rest needle

/-! ## Python float parsing over ℚ -/

/-- Numeric value of a digit string (most significant digit first). -/
def digitsToNat (ds : List Char) : Nat :=
  ds.foldl (fun a c => a * 10 + (c.toNat - '0'.toNat)) 0

/-- The exact rational value of a decimal literal: sign, mantissa digits
(integer part followed by fractional part), and a base-ten exponent already
reduced by the fractional length.  Built with `mkRat` and integer
arithmetic only, so that it evaluates inside the kernel. -/
def decimalValue (sgn : Int) (mantissa : Nat) (shift : Int) : ℚ :=
  if 0 ≤ shift then mkRat (sgn * mantissa * (10 : Int) ^ shift.toNat) 1
  else mkRat (sgn * mantissa) ((10 : Nat) ^ (-shift).toNat)

/-- Python `float(s)` modelled over `ℚ`: optional surrounding whitespace,
optional sign, a mantissa `d+`, `d+.d*` or `.d+`, and an optional
`e`/`E` exponent with optional sign and mandatory digits.  Returns `none`
when Python would raise `ValueError`.  The result is the exact value of
the decimal literal.  (The `inf`/`nan`/underscore forms accepted by
Python, and IEEE-754 rounding, are not modelled; no claim depends on
them.) -/
def pyFloat? (s : String) : Option ℚ :=
  let cs := stripChars pyWhitespace s.data
  let signAndRest : Int × List Char :=
    match cs with
    | '-' :: rest => (-1, rest)
    | '+' :: rest => (1, rest)
    | _ => (1, cs)
  let sgn := signAndRest.1
  let cs1 := signAndRest.2
  let intDigits := cs1.takeWhile Char.isDigit
  let cs2 := cs1.dropWhile Char.isDigit
  let fracAndRest : List Char × List Char :=
    match cs2 with
    | '.' :: rest => (rest.takeWhile Char.isDigit, rest.dropWhile Char.isDigit)
    | _ => ([], cs2)
  let fracDigits := fracAndRest.1
  let cs3 := fracAndRest.2
  if intDigits.isEmpty && fracDigits.isEmpty then none
  else
    let mantissa : Nat := digitsToNat intDigits * 10 ^ fracDigits.length + digitsToNat fracDigits
    match cs3 with
    | [] => some (decimalValue sgn mantissa (-(fracDigits.length : Int)))
    | c :: rest =>
      if c = 'e' || c = 'E' then
        let esignAndRest : Int × List Char :=
          match rest with
          | '-' :: r => (-1, r)
          | '+' :: r => (1, r)
          | _ => (1, rest)
        let eDigits := esignAndRest.2.takeWhile Char.isDigit
        let eRest := esignAndRest.2.dropWhile Char.isDigit
        if eDigits.isEmpty || !eRest.isEmpty then none
        else
          some (decimalValue sgn mantissa
            (esignAndRest.1 * (digitsToNat eDigits : Int) - (fracDigits.length : Int)))
      else none

/-! ## NumericCoercer

The coercion pattern inlined throughout `logic.py`
(e.g. lines 144-151): skip the cell when `str(v).strip() == ""`,
else try `float(str(v).replace("$", "").replace(",", ""))`,
treating a raised `ValueError` as a failure carrying the raw text. -/

inductive CoerceResult where
  | absent
  | value (q : ℚ)
  | failure (raw : String)
deriving DecidableEq, Repr

/-- The NumericCoercer of the spec, factored from the inlined pattern at
`logic.py:144-151` (and its copies at 91-97, 102-113, 118-126, 166-174,
247-255): whitespace-only text is absent, otherwise `$` and `,` are removed
and a Python float parse is attempted; a parse failure carries the raw text. -/
def coerceNumeric (s : String) : CoerceResult :=
  if pyStrip s = "" then .absent
  else
    match pyFloat? (removeDollarComma s) with
    | some q => .value q
    | none => .failure s

/-- A pandas cell: `none` models `NaN`.  Coercing a cell first requires
`pd.notna`, so a missing cell is absent. -/
def coerceCell (cell : Option String) : CoerceResult :=
  match cell with
  | none => .absent
  | some s => coerceNumeric s

/-! ## SectionAssigner

`logic.py:81`:
`df["Section"] = df["Section Title"].where(df["Section Title"].notna()).ffill()` —
a plain pandas forward fill of the Section Title column. -/

/-- Forward fill with the running current value. -/
def ffill (cur : Option String) : List (Option String) → List (Option String)
  | [] => []
  | none :: rest => cur :: ffill cur rest
  | some t :: rest => some t :: ffill (some t) rest

/-- The SectionAssigner of `logic.py:81`: the `Section` column is the
forward fill of the `Section Title` column, starting with no current
section. -/
def assignSections (titles : List (Option String)) : List (Option String) :=
  ffill none titles

/-! ## ColumnMapper (`logic.py:41-61`)

A Python `dict` is an insertion-ordered association list whose assignment
replaces in place.  All maps here are built from the empty dict through
`dictInsert`, so keys are unique and replacing the first occurrence is
exact `dict` semantics. -/

/-- One contractor's column entry (`contractor_map[contractor]`,
`logic.py:46-61`): `unit_price_col` is always assigned when the entry is
touched; the quantity/extension columns only when in range, so they stay
optional. -/
structure ColTriple where
  unit_price_col : Nat
  unit_price_col_name : String
  quantity_col : Option Nat := none
  quantity_col_name : Option String := none
  extension_col : Option Nat := none
  extension_col_name : Option String := none
deriving DecidableEq, Repr

abbrev CMap := List (String × ColTriple)

/-- Python `dict` assignment `m[k] = v`: replace in place, else append. -/
def dictInsert {α : Type} : List (String × α) → String → α → List (String × α)
  | [], k, v => [(k, v)]
  | p :: rest, k, v => if p.1 = k then (k, v) :: rest else p :: dictInsert rest k v

/-- Python `dict` lookup `m.get(k)`. -/
def lookupD {α : Type} : List (String × α) → String → Option α
  | [], _ => none
  | p :: rest, k => if p.1 = k then some p.2 else lookupD rest k

/-- The assignments at `logic.py:46-61` for one "Unit Price" column at
index `i`: always (re)write the unit-price column and its name; write the
quantity column only when `i - 1 ≥ 0`, and the extension column only when
`i + 1 < len(header_row)`, leaving any previous value in place otherwise. -/
def updEntry (header : List String) (old : Option ColTriple) (i : Nat) : ColTriple :=
  { unit_price_col := i
    unit_price_col_name := header.getD i ""
    quantity_col := if 1 ≤ i then some (i - 1) else old.bind (fun t => t.quantity_col)
    quantity_col_name :=
      if 1 ≤ i then some (header.getD (i - 1) "") else old.bind (fun t => t.quantity_col_name)
    extension_col :=
      if i + 1 < header.length then some (i + 1) else old.bind (fun t => t.extension_col)
    extension_col_name :=
      if i + 1 < header.length then some (header.getD (i + 1) "")
      else old.bind (fun t => t.extension_col_name) }

/-- The enumeration loop of `logic.py:42-61` over the header row, tracking
the current column index.  The contractor cell is trimmed of quotes and
spaces and skipped when empty. -/
def cmapGo (header crow : List String) : Nat → List String → CMap → CMap
  | _, [], m => m
  | i, h :: hs, m =>
    cmapGo header crow (i + 1) hs
      (if h = "Unit Price" then
        (if stripQuoteSpace (crow.getD i "") = "" then m
         else
           dictInsert m (stripQuoteSpace (crow.getD i ""))
             (updEntry header (lookupD m (stripQuoteSpace (crow.getD i ""))) i))
       else m)

/-- The ColumnMapper (`logic.py:41-61`): map every contractor named in the
contractor row under a "Unit Price" header cell to its column entry.
Reading the contractor row with `getD _ ""` models the padding of the
contractor row to the header length at `logic.py:36-37`. -/
def buildContractorMap (header crow : List String) : CMap :=
  cmapGo header crow 0 header []

/-- The ascending list of column indices at which the header suffix `hs`
(whose first element sits at absolute index `i`) reads "Unit Price" and the
contractor row holds the (trimmed) name `c`. -/
def occsAux (crow : List String) (c : String) : Nat → List String → List Nat
  | _, [] => []
  | i, h :: hs =>
    (if h = "Unit Price" ∧ stripQuoteSpace (crow.getD i "") = c then [i] else []) ++
      occsAux crow c (i + 1) hs

/-- The ascending list of column indices registering contractor `c`:
header cell "Unit Price" and trimmed contractor cell equal to `c`. -/
def occIndices (header crow : List String) (c : String) : List Nat :=
  (List.range header.length).filter
    (fun j => (header.getD j "" == "Unit Price") && (stripQuoteSpace (crow.getD j "") == c))

/-- Folding the per-column update over a list of occurrence indices. -/
def applyOccs (header : List String) : Option ColTriple → List Nat → Option ColTriple
  | t?, [] => t?
  | t?, j :: js => applyOccs header (some (updEntry header t? j)) js

lemma applyOccs_append (header : List String) (xs ys : List Nat) :
    ∀ t?, applyOccs header t? (xs ++ ys) = applyOccs header (applyOccs header t? xs) ys := by
  induction xs with
  | nil => intro t?; rfl
  | cons j js ih => intro t?; simpa [applyOccs] using ih (some (updEntry header t? j))

/-! ## The loaded DataFrame

`pd.read_csv(..., skiprows=6)` followed by `dropna(how="all")`
(`logic.py:64-72`) produces a table whose rows keep their pandas index
labels (`iterrows` yields labels; `iloc` is positional) and whose cells
are optional strings (`none` is `NaN`; `read_csv` turns empty cells into
`NaN` via `na_values`).  `cols` are the DataFrame column names, already
de-duplicated by pandas (`Unit Price`, `Unit Price.1`, ...).  The numeric
dtype that pandas may give some columns only changes how a value renders
through `str(...)`; cells are kept as their string rendering. -/

structure BidRow where
  label : Nat
  cells : List (Option String)
deriving DecidableEq, Repr

structure BidTable where
  cols : List String
  rows : List BidRow
deriving DecidableEq, Repr

/-- Position of a named column in `df.columns` (unique after pandas
de-duplication, so first match is the column). -/
def colIdx (t : BidTable) (name : String) : Option Nat :=
  t.cols.findIdx? (fun c => c == name)

/-- Positional cell access, `row.iloc[i]`; out of range is `NaN`. -/
def cellAt (r : BidRow) (i : Nat) : Option String :=
  r.cells.getD i none

/-- Named cell access, `row[name]`.  A missing column is modelled as
all-`NaN` (in `logic.py` it would raise into the outer `try`; no claim
exercises that path). -/
def namedCell (t : BidTable) (r : BidRow) (name : String) : Option String :=
  match colIdx t name with
  | some i => cellAt r i
  | none => none

/-- `str(row["Section Title"])` as pandas `astype(str)` renders it:
`NaN` becomes the string `"nan"` (`logic.py:135`, `logic.py:158`). -/
def rowTitleStr (t : BidTable) (r : BidRow) : String :=
  match namedCell t r "Section Title" with
  | some s => s
  | none => "nan"

/-- The row filter of `logic.py:134-136`:
`df["Section Title"].astype(str).str.contains("Base Bid Total:")`. -/
def isBaseBidRow (t : BidTable) (r : BidRow) : Bool :=
  containsSub (rowTitleStr t r).data "Base Bid Total:".data

/-- The per-contractor cell read shared by the aggregators
(`logic.py:142-151`, 163-174, 244-255): an optional column index, a bounds
check against the row length, then coercion, keeping only a present,
coercible, non-zero value. -/
def colValue (idx? : Option Nat) (row : BidRow) : Option ℚ :=
  match idx? with
  | none => none
  | some i =>
    if i < row.cells.length then
      match coerceCell (cellAt row i) with
      | .value q => if q ≠ 0 then some q else none
      | _ => none
    else none

/-- The per-contractor extension totals of a single row
(`logic.py:141-151` and 162-174). -/
def contractorExtTotals (row : BidRow) (m : CMap) : List (String × ℚ) :=
  m.filterMap (fun p => (colValue p.2.extension_col row).map (fun q => (p.1, q)))

/-- `get_total_bids` (`logic.py:133-152`): the first row whose title
contains "Base Bid Total:", read at each contractor's extension column;
the empty series when no row matches. -/
def get_total_bids (t : BidTable) (m : CMap) : List (String × ℚ) :=
  match t.rows.find? (fun r => isBaseBidRow t r) with
  | none => []
  | some row => contractorExtTotals row m

/-- One iteration of the section loop of `get_section_totals`
(`logic.py:157-176`): the first row whose stripped title equals the
section name; the section is recorded only when its per-contractor totals
are non-empty. -/
def sectionStep (t : BidTable) (m : CMap) (acc : List (String × List (String × ℚ)))
    (s : String) : List (String × List (String × ℚ)) :=
  match t.rows.find? (fun r => pyStrip (rowTitleStr t r) == s) with
  | none => acc
  | some row =>
    if (contractorExtTotals row m).isEmpty then acc
    else dictInsert acc s (contractorExtTotals row m)

/-- `get_section_totals` (`logic.py:155-177`): fold the section loop over
`section_list`, starting from the empty dict. -/
def get_section_totals (t : BidTable) (m : CMap) (sections : List String) :
    List (String × List (String × ℚ)) :=
  sections.foldl (sectionStep t m) []

/-! ## Structural load phase and Validator (`logic.py:13-126`) -/

/-- One Python `csv.reader` line split (default dialect,
`skipinitialspace=True`), as used at `logic.py:31-34`: fields split on
commas outside double quotes, a doubled quote inside a quoted field is a
literal quote, spaces directly after a delimiter are skipped.  Mode 0: at
field start; 1: in an unquoted field; 2: inside quotes; 3: just after a
closing quote. -/
def csvGo : Nat → List Char → List Char → List String → List String
  | _, [], cur, acc => acc ++ [String.mk cur]
  | 0, ch :: rest, cur, acc =>
    if ch = ' ' then csvGo 0 rest cur acc
    else if ch = '"' then csvGo 2 rest cur acc
    else if ch = ',' then csvGo 0 rest [] (acc ++ [String.mk cur])
    else csvGo 1 rest (cur ++ [ch]) acc
  | 1, ch :: rest, cur, acc =>
    if ch = ',' then csvGo 0 rest [] (acc ++ [String.mk cur])
    else csvGo 1 rest (cur ++ [ch]) acc
  | 2, ch :: rest, cur, acc =>
    if ch = '"' then csvGo 3 rest cur acc
    else csvGo 2 rest (cur ++ [ch]) acc
  | _, ch :: rest, cur, acc =>
    if ch = '"' then csvGo 2 rest (cur ++ ['"']) acc
    else if ch = ',' then csvGo 0 rest [] (acc ++ [String.mk cur])
    else csvGo 1 rest (cur ++ [ch]) acc

/-- `next(csv.reader([line], skipinitialspace=True))` on one raw line from
`readlines`: the trailing newline is removed first; an empty line yields an
empty row. -/
def csvSplitLine (line : String) : List String :=
  let cs := (line.data.reverse.dropWhile (fun ch => ch = '\n' || ch = '\r')).reverse
  if cs.isEmpty then [] else csvGo 0 cs [] []

/-- Result of the structural phase of `load_bid_data`: either the
structural failure (the caller receives `(None, None, None, errors)` — no
rows, no contractor map, no section list), or the split contractor/header
rows and the contractor map. -/
inductive LoadResult where
  | failure (errors : List String)
  | success (contractorRow headerRow : List String) (cmap : CMap)
deriving DecidableEq, Repr

/-- The structural phase of `load_bid_data` (`logic.py:13-61`): with fewer
than `header_index + 1 = 7` lines the load stops, reporting
`"File '<filename>' missing required header rows."` (`logic.py:18-27`);
otherwise the contractor row (line index 5) and header row (line index 6)
are split, the contractor row padded to the header length
(`logic.py:36-37`), and the contractor map built.  The subsequent DataFrame
phase is modelled by `BidTable` and the query functions. -/
def load_bid_data (filename : String) (lines : List String) : LoadResult :=
  if lines.length ≤ 6 then
    .failure ["File '" ++ filename ++ "' missing required header rows."]
  else
    let contractorRow := csvSplitLine (lines.getD 5 "")
    let headerRow := csvSplitLine (lines.getD 6 "")
    let contractorRow' :=
      if contractorRow.length < headerRow.length then
        contractorRow ++ List.replicate (headerRow.length - contractorRow.length) ""
      else contractorRow
    .success contractorRow' headerRow (buildContractorMap headerRow contractorRow')

/-- The error message format of `logic.py:95-97` (also 111-113 and
124-126). -/
def fieldErr (label : Nat) (contractor kind v : String) : String :=
  "Row " ++ toString (label + 2) ++ ": Contractor '" ++ contractor ++ "' " ++ kind ++
    " value '" ++ v ++ "' is not numeric."

/-- One field check of the Validator (`logic.py:88-97`, 99-113, 115-126):
the stored COLUMN NAME is looked up in `df.columns`
(`quantity_col_name in df.columns`), the row read is `df.iloc[idx + 1]` —
the row AFTER the row being iterated — guarded by `idx + 1 < len(df)`; a
present, non-blank, non-coercible value appends one error. -/
def checkFieldAt (t : BidTable) (label : Nat) (contractor : String)
    (nm? : Option String) (kind : String) : List String :=
  match nm? with
  | none => []
  | some nm =>
    if (colIdx t nm).isSome ∧ label + 1 < t.rows.length then
      match coerceCell (namedCell t (t.rows.getD (label + 1) ⟨0, []⟩) nm) with
      | .failure raw => [fieldErr label contractor kind raw]
      | _ => []
    else []

/-- The Validator loop (`logic.py:84-126`): for each row (with its pandas
label, as `iterrows` yields it) and each contractor, check the quantity,
unit-price and extension fields. -/
def validateRows (t : BidTable) (m : CMap) : List String :=
  t.rows.flatMap (fun r =>
    m.flatMap (fun p =>
      checkFieldAt t r.label p.1 p.2.quantity_col_name "quantity" ++
        checkFieldAt t r.label p.1 (some p.2.unit_price_col_name) "unit price" ++
        checkFieldAt t r.label p.1 p.2.extension_col_name "extension"))

/-! ## Line items grouped by section (`logic.py:213-262`) -/

abbrev UnitPrices := List (String × ℚ)
abbrev ItemMap := List (String × UnitPrices)
abbrev DisplayMap := List (String × String)

/-- `df["Section"].unique()`: distinct values in first-appearance order,
`NaN` included (`logic.py:221`). -/
def uniqueVals (xs : List (Option String)) : List (Option String) :=
  xs.foldl (fun acc x => if x ∈ acc then acc else acc ++ [x]) []

/-- `df[df["Section"] == section]` (`logic.py:225`): a `NaN` Section never
equals a string. -/
def sectionRows (t : BidTable) (s : String) : List BidRow :=
  t.rows.filter (fun r => namedCell t r "Section" == some s)

/-- `section_df["Item Description"].value_counts().get(d, 0)`
(`logic.py:229` with the lookup at 238): the number of section rows whose
RAW description value equals `d` — the loop looks the STRIPPED description
up among raw values. -/
def descCount (t : BidTable) (s : String) (d : String) : Nat :=
  ((sectionRows t s).filter (fun r => namedCell t r "Item Description" == some d)).length

/-- `str(row["Line Item"]).strip()` (`logic.py:234`): `NaN` renders as
"nan". -/
def lineStrOf (t : BidTable) (r : BidRow) : String :=
  pyStrip (match namedCell t r "Line Item" with
    | some v => v
    | none => "nan")

/-- The unique key `f"{desc} (Line {line})"` (`logic.py:236`). -/
def rowUniqueKey (t : BidTable) (r : BidRow) (d : String) : String :=
  pyStrip d ++ " (Line " ++ lineStrOf t r ++ ")"

/-- The display name (`logic.py:238-241`): the line number is appended
exactly when the stripped description is counted more than once among the
section rows' raw description values. -/
def rowDisplayName (t : BidTable) (s : String) (r : BidRow) (d : String) : String :=
  if descCount t s (pyStrip d) > 1 then pyStrip d ++ " [Line " ++ lineStrOf t r ++ "]"
  else pyStrip d

/-- The per-contractor unit prices of one row (`logic.py:242-255`): same
present/coercible/non-zero filter as the extension totals, at
`unit_price_col`. -/
def rowUnitPrices (row : BidRow) (m : CMap) : UnitPrices :=
  m.filterMap (fun p => (colValue (some p.2.unit_price_col) row).map (fun q => (p.1, q)))

/-- One row of the per-section loop (`logic.py:230-258`): a row with a
present description and at least one unit price inserts its unique key
into `items` and its display name into `display_names`. -/
def itemStep (t : BidTable) (m : CMap) (s : String)
    (acc : ItemMap × DisplayMap) (r : BidRow) : ItemMap × DisplayMap :=
  match namedCell t r "Item Description" with
  | none => acc
  | some d =>
    if (rowUnitPrices r m).isEmpty then acc
    else
      (dictInsert acc.1 (rowUniqueKey t r d) (rowUnitPrices r m),
        dictInsert acc.2 (rowDisplayName t s r d) (rowUniqueKey t r d))

/-- The per-section item and display maps (`logic.py:226-258`). -/
def itemsForSection (t : BidTable) (m : CMap) (s : String) : ItemMap × DisplayMap :=
  (sectionRows t s).foldl (itemStep t m s) ([], [])

/-- One section of the outer loop (`logic.py:222-261`): `NaN` sections are
skipped, and a section is recorded (in both result dicts) only when its
item map is non-empty. -/
def lineItemStep (t : BidTable) (m : CMap)
    (acc : List (String × ItemMap) × List (String × DisplayMap)) (s? : Option String) :
    List (String × ItemMap) × List (String × DisplayMap) :=
  match s? with
  | none => acc
  | some s =>
    if (itemsForSection t m s).1.isEmpty then acc
    else
      (dictInsert acc.1 s (itemsForSection t m s).1,
        dictInsert acc.2 s (itemsForSection t m s).2)

/-- `get_line_items_by_section` (`logic.py:213-262`): fold the section loop
over the distinct Section values. -/
def get_line_items_by_section (t : BidTable) (m : CMap) :
    List (String × ItemMap) × List (String × DisplayMap) :=
  (uniqueVals (t.rows.map (fun r => namedCell t r "Section"))).foldl
    (lineItemStep t m) ([], [])

/-! ## Supporting lemmas for the column mapper -/

lemma beq_eq_decide (a b : String) : (a == b) = decide (a = b) := by
  by_cases h : a = b <;> simp [h]

lemma lookupD_dictInsert_self {α : Type} (m : List (String × α)) (k : String) (v : α) :
    lookupD (dictInsert m k v) k = some v := by
  induction m with
  | nil => simp [dictInsert, lookupD]
  | cons p rest ih =>
    by_cases h : p.1 = k
    · simp [dictInsert, lookupD, h]
    · simp [dictInsert, lookupD, h, ih]

lemma lookupD_dictInsert_ne {α : Type} (m : List (String × α)) (k k' : String) (v : α)
    (h : k' ≠ k) : lookupD (dictInsert m k v) k' = lookupD m k' := by
  induction m with
  | nil => simp [dictInsert, lookupD, Ne.symm h]
  | cons p rest ih =>
    by_cases hp : p.1 = k
    · simp [dictInsert, lookupD, hp, Ne.symm h, h]
    · by_cases hpk : p.1 = k' <;> simp [dictInsert, lookupD, hp, hpk, ih, h]

lemma cmapGo_lookup (header crow : List String) (c : String) (hc : c ≠ "") :
    ∀ (hs : List String) (i : Nat) (m : CMap),
      lookupD (cmapGo header crow i hs m) c =
        applyOccs header (lookupD m c) (occsAux crow c i hs) := by
  intro hs
  induction hs with
  | nil => intro i m; rfl
  | cons h hs ih =>
    intro i m
    rw [cmapGo, occsAux]
    by_cases hup : h = "Unit Price"
    · by_cases hcc : stripQuoteSpace (crow.getD i "") = c
      · have hne : ¬ stripQuoteSpace (crow.getD i "") = "" := by rw [hcc]; exact hc
        rw [if_pos hup, if_neg hne, if_pos ⟨hup, hcc⟩, ih, hcc, lookupD_dictInsert_self]
        rw [List.singleton_append, applyOccs]
      · have hnocc : ¬ (h = "Unit Price" ∧ stripQuoteSpace (crow.getD i "") = c) :=
          fun hx => hcc hx.2
        rw [if_pos hup, if_neg hnocc, List.nil_append]
        by_cases hemp : stripQuoteSpace (crow.getD i "") = ""
        · rw [if_pos hemp]; exact ih (i + 1) m
        · rw [if_neg hemp, ih, lookupD_dictInsert_ne _ _ _ _ (Ne.symm hcc)]
    · have hnocc : ¬ (h = "Unit Price" ∧ stripQuoteSpace (crow.getD i "") = c) :=
        fun hx => hup hx.1
      rw [if_neg hup, if_neg hnocc, List.nil_append]
      exact ih (i + 1) m

lemma occsAux_eq_filter (crow : List String) (c : String) :
    ∀ (hs : List String) (i : Nat),
      occsAux crow c i hs =
        (List.range' i hs.length).filter
          (fun j => (hs.getD (j - i) "" == "Unit Price") &&
            (stripQuoteSpace (crow.getD j "") == c)) := by
  intro hs
  induction hs with
  | nil => intro i; rfl
  | cons h hs ih =>
    intro i
    rw [occsAux, List.length_cons, List.range'_succ, List.filter_cons]
    have htail :
        (List.range' (i + 1) hs.length 1).filter
            (fun j => ((h :: hs).getD (j - i) "" == "Unit Price") &&
              (stripQuoteSpace (crow.getD j "") == c)) =
          (List.range' (i + 1) hs.length 1).filter
            (fun j => (hs.getD (j - (i + 1)) "" == "Unit Price") &&
              (stripQuoteSpace (crow.getD j "") == c)) := by
      apply List.filter_congr
      intro j hj
      rcases List.mem_range'.mp hj with ⟨p, _, hp⟩
      have h1 : j - i = (j - (i + 1)) + 1 := by omega
      rw [h1, List.getD_cons_succ]
    rw [htail, ← ih (i + 1)]
    have hhead : (((h :: hs).getD (i - i) "" == "Unit Price") &&
        (stripQuoteSpace (crow.getD i "") == c)) =
        decide (h = "Unit Price" ∧ stripQuoteSpace (crow.getD i "") = c) := by
      rw [Nat.sub_self, Bool.decide_and, beq_eq_decide, beq_eq_decide, List.getD_cons_zero]
    rw [hhead]
    by_cases hb : h = "Unit Price" ∧ stripQuoteSpace (crow.getD i "") = c
    · rw [if_pos hb, decide_eq_true hb]; simp
    · rw [if_neg hb, decide_eq_false hb]; simp

lemma occsAux_zero (header crow : List String) (c : String) :
    occsAux crow c 0 header = occIndices header crow c := by
  rw [occsAux_eq_filter crow c header 0, occIndices, List.range_eq_range']
  apply List.filter_congr
  intro j _
  rw [Nat.sub_zero]

lemma applyOccs_spec (header : List String) (os : List Nat) :
    applyOccs header none os =
      match os.getLast? with
      | none => none
      | some lastIdx => some {
          unit_price_col := lastIdx
          unit_price_col_name := header.getD lastIdx ""
          quantity_col := ((os.filter (fun j => 1 ≤ j)).getLast?).map (fun j => j - 1)
          quantity_col_name :=
            ((os.filter (fun j => 1 ≤ j)).getLast?).map (fun j => header.getD (j - 1) "")
          extension_col :=
            ((os.filter (fun j => j + 1 < header.length)).getLast?).map (fun j => j + 1)
          extension_col_name :=
            ((os.filter (fun j => j + 1 < header.length)).getLast?).map
              (fun j => header.getD (j + 1) "") } := by
  induction os using List.reverseRecOn with
  | nil => rfl
  | append_singleton os j ih =>
    rw [applyOccs_append, ih, List.getLast?_concat, List.filter_append, List.filter_append]
    cases hlast : os.getLast? with
    | none =>
      rw [List.getLast?_eq_none_iff.mp hlast]
      simp only [applyOccs, List.filter_nil, List.nil_append, List.filter_cons,
        List.filter_nil]
      by_cases h1 : 1 ≤ j <;> by_cases h2 : j + 1 < header.length <;>
        simp [updEntry, h1, h2]
    | some lastIdx =>
      simp only [applyOccs, List.filter_cons, List.filter_nil]
      by_cases h1 : 1 ≤ j <;> by_cases h2 : j + 1 < header.length <;>
        simp [updEntry, h1, h2, List.getLast?_concat]

/-! ## Supporting lemmas for the aggregators -/

lemma colValue_eq_some (idx? : Option Nat) (row : BidRow) (q : ℚ) :
    colValue idx? row = some q ↔
      ∃ i, idx? = some i ∧ i < row.cells.length ∧
        ∃ s, cellAt row i = some s ∧ coerceNumeric s = .value q ∧ q ≠ 0 := by
  cases idx? with
  | none => simp [colValue]
  | some i =>
    rw [colValue]
    by_cases hlen : i < row.cells.length
    · rw [if_pos hlen]
      cases hcell : cellAt row i with
      | none => simp [coerceCell, hcell]
      | some s =>
        cases hcn : coerceNumeric s with
        | absent => simp [coerceCell, hcell, hcn]
        | failure raw => simp [coerceCell, hcell, hcn]
        | value q' =>
          by_cases hq : q' = 0
          · subst hq
            simp [coerceCell, hcell, hcn]
            exact fun _ h => h.symm
          · simp [coerceCell, hcell, hcn, hq]
            exact ⟨fun h => ⟨hlen, h, h ▸ hq⟩, fun ⟨_, h, _⟩ => h⟩
    · rw [if_neg hlen]
      simp [hlen]
lemma exists_mem_dictInsert_self {α : Type} (m : List (String × α)) (k : String) (v : α) :
    ∃ x, (k, x) ∈ dictInsert m k v := by
  induction m with
  | nil => exact ⟨v, by simp [dictInsert]⟩
  | cons p rest ih =>
    by_cases hp : p.1 = k
    · exact ⟨v, by rw [dictInsert, if_pos hp]; simp⟩
    · obtain ⟨x, hx⟩ := ih
      exact ⟨x, by rw [dictInsert, if_neg hp]; exact List.mem_cons_of_mem p hx⟩

lemma exists_mem_dictInsert {α : Type} (m : List (String × α)) (k k' : String) (v : α) :
    (∃ x, (k', x) ∈ dictInsert m k v) ↔ k' = k ∨ ∃ x, (k', x) ∈ m := by
  by_cases hk : k' = k
  · subst hk
    simp [exists_mem_dictInsert_self m k' v]
  · induction m with
    | nil => simp [dictInsert, Prod.mk.injEq, hk]
    | cons p rest ih =>
      by_cases hp : p.1 = k
      · have hk' : ¬ k' = p.1 := by rw [hp]; exact hk
        rw [dictInsert, if_pos hp]
        simp [Prod.mk.injEq, hk, hk', Prod.ext_iff]
      · rw [dictInsert, if_neg hp]
        simp only [List.mem_cons, exists_or] at ih ⊢
        simp [ih, hk]

lemma sectionStep_none (t : BidTable) (m : CMap) (acc : List (String × List (String × ℚ)))
    (s : String) (hfind : t.rows.find? (fun r => pyStrip (rowTitleStr t r) == s) = none) :
    sectionStep t m acc s = acc := by
  rw [sectionStep, hfind]

lemma sectionStep_empty (t : BidTable) (m : CMap) (acc : List (String × List (String × ℚ)))
    (s : String) (row : BidRow)
    (hfind : t.rows.find? (fun r => pyStrip (rowTitleStr t r) == s) = some row)
    (hemp : contractorExtTotals row m = []) :
    sectionStep t m acc s = acc := by
  simp only [sectionStep, hfind, hemp, List.isEmpty_nil, if_true]

lemma sectionStep_insert (t : BidTable) (m : CMap) (acc : List (String × List (String × ℚ)))
    (s : String) (row : BidRow)
    (hfind : t.rows.find? (fun r => pyStrip (rowTitleStr t r) == s) = some row)
    (hemp : contractorExtTotals row m ≠ []) :
    sectionStep t m acc s = dictInsert acc s (contractorExtTotals row m) := by
  have hbool : (contractorExtTotals row m).isEmpty = false := by
    cases h : contractorExtTotals row m with
    | nil => exact absurd h hemp
    | cons a l => rfl
  simp only [sectionStep, hfind, hbool, Bool.false_eq_true, if_false]

lemma keys_section_totals_fold (t : BidTable) (m : CMap) :
    ∀ (sections : List String) (acc : List (String × List (String × ℚ))) (s : String),
      (s ∈ ((sections.foldl (sectionStep t m) acc)).map Prod.fst ↔
        s ∈ acc.map Prod.fst ∨
          (s ∈ sections ∧
            ∃ row, t.rows.find? (fun r => pyStrip (rowTitleStr t r) == s) = some row ∧
              contractorExtTotals row m ≠ [])) := by
  intro sections
  induction sections with
  | nil => intro acc s; simp
  | cons s0 rest ih =>
    intro acc s
    rw [List.foldl_cons, ih]
    by_cases hs : s = s0
    · subst hs
      cases hfind : t.rows.find? (fun r => pyStrip (rowTitleStr t r) == s) with
      | none => simp [sectionStep_none t m acc s hfind, hfind]
      | some row =>
        by_cases hemp : contractorExtTotals row m = []
        · simp [sectionStep_empty t m acc s row hfind hemp, hfind, hemp]
        · rw [sectionStep_insert t m acc s row hfind hemp]
          simp [exists_mem_dictInsert, hfind, hemp]
    · cases hfind0 : t.rows.find? (fun r => pyStrip (rowTitleStr t r) == s0) with
      | none => simp [sectionStep_none t m acc s0 hfind0, hs]
      | some row0 =>
        by_cases hemp0 : contractorExtTotals row0 m = []
        · simp [sectionStep_empty t m acc s0 row0 hfind0 hemp0, hs]
        · rw [sectionStep_insert t m acc s0 row0 hfind0 hemp0]
          simp [exists_mem_dictInsert, hs]

/-! ## Supporting lemmas for the line items -/

lemma itemStep_nodesc (t : BidTable) (m : CMap) (s : String) (acc : ItemMap × DisplayMap)
    (r : BidRow) (hdesc : namedCell t r "Item Description" = none) :
    itemStep t m s acc r = acc := by
  rw [itemStep, hdesc]

lemma itemStep_noprice (t : BidTable) (m : CMap) (s : String) (acc : ItemMap × DisplayMap)
    (r : BidRow) (d : String) (hdesc : namedCell t r "Item Description" = some d)
    (hemp : rowUnitPrices r m = []) :
    itemStep t m s acc r = acc := by
  simp only [itemStep, hdesc, hemp, List.isEmpty_nil, if_true]

lemma itemStep_insert (t : BidTable) (m : CMap) (s : String) (acc : ItemMap × DisplayMap)
    (r : BidRow) (d : String) (hdesc : namedCell t r "Item Description" = some d)
    (hemp : rowUnitPrices r m ≠ []) :
    itemStep t m s acc r =
      (dictInsert acc.1 (rowUniqueKey t r d) (rowUnitPrices r m),
        dictInsert acc.2 (rowDisplayName t s r d) (rowUniqueKey t r d)) := by
  have hbool : (rowUnitPrices r m).isEmpty = false := by
    cases h : rowUnitPrices r m with
    | nil => exact absurd h hemp
    | cons a l => rfl
  simp only [itemStep, hdesc, hbool, Bool.false_eq_true, if_false]

lemma items_fold_keys (t : BidTable) (m : CMap) (s : String) :
    ∀ (rows : List BidRow) (acc : ItemMap × DisplayMap) (k : String),
      (∃ v, (k, v) ∈ (rows.foldl (itemStep t m s) acc).1) ↔
        (∃ v, (k, v) ∈ acc.1) ∨
          ∃ r, r ∈ rows ∧
            ∃ d, namedCell t r "Item Description" = some d ∧
              k = rowUniqueKey t r d ∧ rowUnitPrices r m ≠ [] := by
  intro rows
  induction rows with
  | nil => intro acc k; simp
  | cons r rest ih =>
    intro acc k
    rw [List.foldl_cons, ih]
    cases hdesc : namedCell t r "Item Description" with
    | none => simp [itemStep_nodesc t m s acc r hdesc, hdesc]
    | some d =>
      by_cases hemp : rowUnitPrices r m = []
      · simp [itemStep_noprice t m s acc r d hdesc hemp, hdesc, hemp]
      · rw [itemStep_insert t m s acc r d hdesc hemp]
        simp [exists_mem_dictInsert, hdesc, hemp]
        tauto

lemma items_fold_display_mono (t : BidTable) (m : CMap) (s : String) :
    ∀ (rows : List BidRow) (acc : ItemMap × DisplayMap) (dn : String),
      (∃ k, (dn, k) ∈ acc.2) → ∃ k, (dn, k) ∈ (rows.foldl (itemStep t m s) acc).2 := by
  intro rows
  induction rows with
  | nil => intro acc dn h; exact h
  | cons r rest ih =>
    intro acc dn h
    rw [List.foldl_cons]
    apply ih
    cases hdesc : namedCell t r "Item Description" with
    | none => rw [itemStep_nodesc t m s acc r hdesc]; exact h
    | some d =>
      by_cases hemp : rowUnitPrices r m = []
      · rw [itemStep_noprice t m s acc r d hdesc hemp]; exact h
      · rw [itemStep_insert t m s acc r d hdesc hemp]
        exact (exists_mem_dictInsert _ _ _ _).mpr (Or.inr h)

lemma items_fold_display (t : BidTable) (m : CMap) (s : String) :
    ∀ (rows : List BidRow) (acc : ItemMap × DisplayMap) (r : BidRow) (d : String),
      r ∈ rows → namedCell t r "Item Description" = some d → rowUnitPrices r m ≠ [] →
      ∃ k, (rowDisplayName t s r d, k) ∈ (rows.foldl (itemStep t m s) acc).2 := by
  intro rows
  induction rows with
  | nil => intro acc r d hmem; exact absurd hmem (List.not_mem_nil r)
  | cons r0 rest ih =>
    intro acc r d hmem hdesc hemp
    rcases List.mem_cons.mp hmem with hr | hr
    · subst hr
      rw [List.foldl_cons, itemStep_insert t m s acc r d hdesc hemp]
      exact items_fold_display_mono t m s rest _ _
        (exists_mem_dictInsert_self _ _ _)
    · rw [List.foldl_cons]
      exact ih _ r d hr hdesc hemp

lemma mem_uniqueVals_fold (xs : List (Option String)) :
    ∀ (acc : List (Option String)) (x : Option String),
      x ∈ xs.foldl (fun acc x => if x ∈ acc then acc else acc ++ [x]) acc ↔
        x ∈ acc ∨ x ∈ xs := by
  induction xs with
  | nil => intro acc x; simp
  | cons y ys ih =>
    intro acc x
    rw [List.foldl_cons, ih]
    by_cases hy : y ∈ acc
    · rw [if_pos hy]
      constructor
      · rintro (h | h)
        · exact Or.inl h
        · exact Or.inr (List.mem_cons_of_mem y h)
      · rintro (h | h)
        · exact Or.inl h
        · rcases List.mem_cons.mp h with rfl | h
          · exact Or.inl hy
          · exact Or.inr h
    · rw [if_neg hy]
      simp only [List.mem_append, List.mem_singleton, List.mem_cons]
      tauto

lemma mem_uniqueVals (xs : List (Option String)) (x : Option String) :
    x ∈ uniqueVals xs ↔ x ∈ xs := by
  rw [uniqueVals, mem_uniqueVals_fold xs [] x]
  simp

lemma lineItemStep_nan (t : BidTable) (m : CMap)
    (acc : List (String × ItemMap) × List (String × DisplayMap)) :
    lineItemStep t m acc none = acc := rfl

lemma lineItemStep_empty (t : BidTable) (m : CMap)
    (acc : List (String × ItemMap) × List (String × DisplayMap)) (s : String)
    (hemp : (itemsForSection t m s).1 = []) :
    lineItemStep t m acc (some s) = acc := by
  simp only [lineItemStep, hemp, List.isEmpty_nil, if_true]

lemma lineItemStep_insert (t : BidTable) (m : CMap)
    (acc : List (String × ItemMap) × List (String × DisplayMap)) (s : String)
    (hemp : (itemsForSection t m s).1 ≠ []) :
    lineItemStep t m acc (some s) =
      (dictInsert acc.1 s (itemsForSection t m s).1,
        dictInsert acc.2 s (itemsForSection t m s).2) := by
  have hbool : (itemsForSection t m s).1.isEmpty = false := by
    cases h : (itemsForSection t m s).1 with
    | nil => exact absurd h hemp
    | cons a l => rfl
  simp only [lineItemStep, hbool, Bool.false_eq_true, if_false]

lemma lineItems_fold_keys (t : BidTable) (m : CMap) :
    ∀ (secs : List (Option String))
      (acc : List (String × ItemMap) × List (String × DisplayMap)) (s : String),
      (∃ im, (s, im) ∈ (secs.foldl (lineItemStep t m) acc).1) ↔
        (∃ im, (s, im) ∈ acc.1) ∨
          (some s ∈ secs ∧ (itemsForSection t m s).1 ≠ []) := by
  intro secs
  induction secs with
  | nil => intro acc s; simp
  | cons s0? rest ih =>
    intro acc s
    rw [List.foldl_cons, ih]
    cases s0? with
    | none => simp [lineItemStep_nan]
    | some s0 =>
      by_cases hs : s = s0
      · subst hs
        by_cases hemp : (itemsForSection t m s).1 = []
        · simp [lineItemStep_empty t m acc s hemp, hemp]
        · rw [lineItemStep_insert t m acc s hemp]
          simp [exists_mem_dictInsert, hemp]
      · by_cases hemp0 : (itemsForSection t m s0).1 = []
        · simp [lineItemStep_empty t m acc s0 hemp0, hs]
        · rw [lineItemStep_insert t m acc s0 hemp0]
          simp [exists_mem_dictInsert, hs]

lemma rowUniqueKey_ne (t : BidTable) (r1 r2 : BidRow) (d1 d2 : String)
    (hd : pyStrip d1 = pyStrip d2) (hl : lineStrOf t r1 ≠ lineStrOf t r2) :
    rowUniqueKey t r1 d1 ≠ rowUniqueKey t r2 d2 := by
  intro heq
  apply hl
  rw [rowUniqueKey, rowUniqueKey, hd] at heq
  have h1 := congrArg String.data heq
  simp only [String.data_append, List.append_assoc] at h1
  have h2 := List.append_cancel_left h1
  have h3 := List.append_cancel_left h2
  have h4 := List.append_cancel_right h3
  exact String.ext h4

/-! ## Supporting lemmas for the forward fill -/

lemma getLast?_cons_eq {α : Type} (a : α) (l : List α) :
    (a :: l).getLast? = match l.getLast? with
      | some b => some b
      | none => some a := by
  cases l with
  | nil => rfl
  | cons b l' =>
    rw [List.getLast?_cons_cons]
    cases h : (b :: l').getLast? with
    | some c => rfl
    | none => simp at h

lemma ffill_getD (xs : List (Option String)) :
    ∀ (cur : Option String) (i : Nat), i < xs.length →
      (ffill cur xs).getD i none =
        (match ((xs.take (i + 1)).filterMap id).getLast? with
         | some t => some t
         | none => cur) := by
  induction xs with
  | nil => intro cur i h; simp at h
  | cons x rest ih =>
    intro cur i h
    cases x with
    | none =>
      cases i with
      | zero => simp [ffill]
      | succ j =>
        have hj : j < rest.length := by simpa using h
        simpa [ffill] using ih cur j hj
    | some t =>
      cases i with
      | zero => simp [ffill]
      | succ j =>
        have hj : j < rest.length := by simpa using h
        have := ih (some t) j hj
        simp only [ffill, List.getD_cons_succ, List.take_succ_cons,
          List.filterMap_cons, id] at this ⊢
        rw [this, getLast?_cons_eq]
        cases ((rest.take (j + 1)).filterMap id).getLast? <;> rfl

lemma ffill_ffill (xs : List (Option String)) :
    ∀ cur, ffill cur (ffill cur xs) = ffill cur xs := by
  induction xs with
  | nil => intro cur; rfl
  | cons x rest ih =>
    intro cur
    cases x with
    | none =>
      cases cur with
      | none => simp [ffill, ih]
      | some t => simp [ffill, ih]
    | some t => simp [ffill, ih]

/-! ## Claim theorems: NumericCoercer and SectionAssigner -/

/-- C6: numeric coercion maps `"$1,234.00"` to the value `1234.00`, maps
empty and whitespace-only input to absent (not zero, not an error), maps
the non-numeric `"abc"` to a failure carrying that raw text, and keeps
absent distinct from a present zero. -/
theorem C6_numeric_coercer_cases :
    coerceNumeric "$1,234.00" = .value 1234 ∧
    coerceNumeric "" = .absent ∧
    coerceNumeric "   " = .absent ∧
    coerceNumeric "abc" = .failure "abc" ∧
    CoerceResult.absent ≠ CoerceResult.value 0 :=
  ⟨by decide, by decide, by decide, by decide, by decide⟩

/-- C6 witness: the coercion round-trip at the concrete input of the claim. -/
theorem C6_numeric_coercer_cases_witness :
    coerceNumeric "$1,234.00" = .value 1234 :=
  C6_numeric_coercer_cases.1

/-- C2 counterexample: `logic.py:81` forward-fills every present
`Section Title`, with no sentinel-pattern test.  The title
`"Base Bid Total: "` matches neither sentinel phrase of the claim
(an overlay title contains `"Mill and Overlay"`, an alternate-section
title contains `"section - required"`, per `app.py:66-69`), yet it
replaces the current section: the final row is assigned
`"Base Bid Total: "` instead of inheriting the preceding sentinel title
`"S.3887 2025 Mill and Overlay"` as the claim requires. -/
theorem C2_nonsentinel_title_propagates :
    assignSections
        [some "S.3887 2025 Mill and Overlay", none, some "Base Bid Total: ", none] =
      [some "S.3887 2025 Mill and Overlay", some "S.3887 2025 Mill and Overlay",
        some "Base Bid Total: ", some "Base Bid Total: "] ∧
    containsSub "Base Bid Total: ".data "Mill and Overlay".data = false ∧
    containsSub "Base Bid Total: ".data "section - required".data = false ∧
    (assignSections
        [some "S.3887 2025 Mill and Overlay", none, some "Base Bid Total: ", none]).getD 3 none ≠
      some "S.3887 2025 Mill and Overlay" :=
  ⟨by decide, by decide, by decide, by decide⟩

/-- C2 (amended): a row's assigned Section equals the `section_title` of the
nearest preceding row (or the row itself) whose `section_title` is present —
any present title changes the current section, with no sentinel-pattern
test; rows with an absent title inherit the most recent present title. -/
theorem C2_section_assignment_forward_fill (xs : List (Option String)) (i : Nat)
    (h : i < xs.length) :
    (assignSections xs).getD i none = ((xs.take (i + 1)).filterMap id).getLast? := by
  rw [assignSections, ffill_getD xs none i h]
  cases ((xs.take (i + 1)).filterMap id).getLast? <;> rfl

/-- C2 witness: the amended theorem at a concrete list, showing a row with
an absent title inheriting the nearest preceding present title. -/
theorem C2_section_assignment_forward_fill_witness :
    (assignSections [some "A", none, some "B", none]).getD 3 none =
      (([some "A", none, some "B", none].take 4).filterMap id).getLast? :=
  C2_section_assignment_forward_fill [some "A", none, some "B", none] 3 (by decide)

/-- C9: section assignment is idempotent — re-running the forward fill of
`logic.py:81` on its own output yields identical labels. -/
theorem C9_section_assignment_idempotent (xs : List (Option String)) :
    assignSections (assignSections xs) = assignSections xs :=
  ffill_ffill xs none

/-! ## Claim theorems: ColumnMapper -/

/-- C3 counterexample: on the header row of the claim, the code
(`logic.py:51-52`) assigns `quantity_col = idx - 1 = 4` — the index of the
"UofM" cell — not `3` (the index of the "Quantity" cell) as the claim
asserts. -/
theorem C3_quantity_col_is_four_not_three :
    (lookupD
        (buildContractorMap
          ["Section Title", "Line Item", "Item Description", "Quantity", "UofM",
            "Unit Price", "Extension"]
          ["", "", "", "", "", "Acme Co", ""])
        "Acme Co").map (fun t => t.quantity_col) = some (some 4) ∧
    some (some 4) ≠ some (some (3 : Nat)) := by
  exact ⟨by decide, by decide⟩

/-- C3 (amended): on the claim's header and contractor rows, the
ColumnMapper yields exactly one entry, for "Acme Co", with
`unit_price_col = 5`, `extension_col = 6`, and `quantity_col = 4` (the
column immediately left of "Unit Price", which here is "UofM", not the
"Quantity" column at index 3). -/
theorem C3_column_mapper_example :
    buildContractorMap
        ["Section Title", "Line Item", "Item Description", "Quantity", "UofM",
          "Unit Price", "Extension"]
        ["", "", "", "", "", "Acme Co", ""] =
      [("Acme Co",
        { unit_price_col := 5
          unit_price_col_name := "Unit Price"
          quantity_col := some 4
          quantity_col_name := some "UofM"
          extension_col := some 6
          extension_col_name := some "Extension" })] := by
  decide

/-- C4 counterexample: when the same contractor name "A" appears under
"Unit Price" headers at columns 0 and 2 of a 3-column header, the final
entry keeps `extension_col = 1` — assigned by the earlier column 0 — even
though for the last-seen column `i = 2` the claim requires `extension_col`
to be present exactly when `i + 1 < 3`, which is false.  The stale value
persists because `logic.py:57-58` only overwrites the field when in
range. -/
theorem C4_stale_extension_col :
    lookupD (buildContractorMap ["Unit Price", "X", "Unit Price"] ["A", "", "A"]) "A" =
      some
        { unit_price_col := 2
          unit_price_col_name := "Unit Price"
          quantity_col := some 1
          quantity_col_name := some "X"
          extension_col := some 1
          extension_col_name := some "X" } ∧
    ¬ (2 + 1 < 3) := by
  exact ⟨by decide, by decide⟩

/-- C4 (amended): for every header row and contractor row, contractor `c`
is registered exactly when some column index has header cell "Unit Price"
and trimmed contractor cell `c`; `unit_price_col` is the last such index;
`quantity_col` is `j - 1` for the last such index `j` with `j ≥ 1`, and
`extension_col` is `j + 1` for the last such index `j` with
`j + 1 < len(header)` — each field independently keeps the most recent
in-range assignment, so a stale field set by an earlier occurrence survives
when the last occurrence leaves it out of range. -/
theorem C4_column_mapper_characterization (header crow : List String) (c : String)
    (hc : c ≠ "") :
    lookupD (buildContractorMap header crow) c =
      match (occIndices header crow c).getLast? with
      | none => none
      | some lastIdx =>
        some
          { unit_price_col := lastIdx
            unit_price_col_name := header.getD lastIdx ""
            quantity_col :=
              (((occIndices header crow c).filter (fun j => 1 ≤ j)).getLast?).map
                (fun j => j - 1)
            quantity_col_name :=
              (((occIndices header crow c).filter (fun j => 1 ≤ j)).getLast?).map
                (fun j => header.getD (j - 1) "")
            extension_col :=
              (((occIndices header crow c).filter
                  (fun j => j + 1 < header.length)).getLast?).map (fun j => j + 1)
            extension_col_name :=
              (((occIndices header crow c).filter
                  (fun j => j + 1 < header.length)).getLast?).map
                (fun j => header.getD (j + 1) "") } := by
  rw [buildContractorMap, cmapGo_lookup header crow c hc header 0 [],
    show lookupD ([] : CMap) c = none from rfl, occsAux_zero header crow c]
  exact applyOccs_spec header (occIndices header crow c)

/-- C4 witness: the characterization applied to the duplicate-contractor
rows of the counterexample, where the occurrence indices are `[0, 2]`. -/
theorem C4_column_mapper_characterization_witness :
    lookupD (buildContractorMap ["Unit Price", "X", "Unit Price"] ["A", "", "A"]) "A" =
      match (occIndices ["Unit Price", "X", "Unit Price"] ["A", "", "A"] "A").getLast?
        with
      | none => none
      | some lastIdx =>
        some
          { unit_price_col := lastIdx
            unit_price_col_name := ["Unit Price", "X", "Unit Price"].getD lastIdx ""
            quantity_col :=
              (((occIndices ["Unit Price", "X", "Unit Price"] ["A", "", "A"]
                    "A").filter (fun j => 1 ≤ j)).getLast?).map (fun j => j - 1)
            quantity_col_name :=
              (((occIndices ["Unit Price", "X", "Unit Price"] ["A", "", "A"]
                    "A").filter (fun j => 1 ≤ j)).getLast?).map
                (fun j => ["Unit Price", "X", "Unit Price"].getD (j - 1) "")
            extension_col :=
              (((occIndices ["Unit Price", "X", "Unit Price"] ["A", "", "A"]
                    "A").filter
                  (fun j => j + 1 < (["Unit Price", "X", "Unit Price"] :
                    List String).length)).getLast?).map (fun j => j + 1)
            extension_col_name :=
              (((occIndices ["Unit Price", "X", "Unit Price"] ["A", "", "A"]
                    "A").filter
                  (fun j => j + 1 < (["Unit Price", "X", "Unit Price"] :
                    List String).length)).getLast?).map
                (fun j => ["Unit Price", "X", "Unit Price"].getD (j + 1) "") } :=
  C4_column_mapper_characterization ["Unit Price", "X", "Unit Price"] ["A", "", "A"]
    "A" (by decide)

/-! ## Claim theorems: Aggregator totals -/

/-- C5: `get_total_bids` locates the first row whose `Section Title`
contains "Base Bid Total:"; a contractor appears in the result with value
`q` exactly when its `extension_col` is set, in range for the row, and the
cell there is present, coercible, and non-zero with value `q`; with no such
row the result is empty; and `"$1,234.50"` coerces to the included value
`1234.50`. -/
theorem C5_total_bids_spec (t : BidTable) (m : CMap) (c : String) (q : ℚ) :
    ((c, q) ∈ get_total_bids t m ↔
      ∃ row, t.rows.find? (fun r => isBaseBidRow t r) = some row ∧
        ∃ cols, (c, cols) ∈ m ∧ colValue cols.extension_col row = some q) ∧
    (t.rows.find? (fun r => isBaseBidRow t r) = none → get_total_bids t m = []) ∧
    (∀ (idx? : Option Nat) (row : BidRow) (q' : ℚ),
      colValue idx? row = some q' ↔
        ∃ i, idx? = some i ∧ i < row.cells.length ∧
          ∃ s, cellAt row i = some s ∧ coerceNumeric s = .value q' ∧ q' ≠ 0) ∧
    coerceNumeric "$1,234.50" = .value (mkRat 2469 2) ∧
    (mkRat 2469 2 : ℚ) = 1234.5 := by
  refine ⟨?_, ?_, colValue_eq_some, by decide,
    by rw [Rat.mkRat_eq_divInt, Rat.divInt_eq_div]; norm_num⟩
  · cases hfind : t.rows.find? (fun r => isBaseBidRow t r) with
    | none =>
      rw [show get_total_bids t m = [] from by rw [get_total_bids, hfind]]
      simp
    | some row =>
      rw [show get_total_bids t m = contractorExtTotals row m from by
            rw [get_total_bids, hfind],
          contractorExtTotals]
      constructor
      · intro hmem
        obtain ⟨⟨c', cols⟩, hp, hf⟩ := List.mem_filterMap.mp hmem
        obtain ⟨q', hq', heq⟩ := Option.map_eq_some'.mp hf
        rw [Prod.mk.injEq] at heq
        obtain ⟨h1, h2⟩ := heq
        subst h1; subst h2
        exact ⟨row, rfl, cols, hp, hq'⟩
      · rintro ⟨row', hrow', cols, hcm, hcv⟩
        injection hrow' with hrow'
        subst hrow'
        exact List.mem_filterMap.mpr ⟨(c, cols), hcm, by rw [hcv]; rfl⟩
  · intro h
    rw [get_total_bids, h]

theorem C5_total_bids_spec_witness :
    ("Acme", mkRat 2469 2) ∈
      get_total_bids
        ⟨["Section Title", "Extension"],
          [⟨0, [some "Base Bid Total: x", some "$1,234.50"]⟩]⟩
        [("Acme", ⟨0, "Unit Price", none, none, some 1, some "Extension"⟩)] :=
  (C5_total_bids_spec _ _ "Acme" (mkRat 2469 2)).1.mpr
    ⟨⟨0, [some "Base Bid Total: x", some "$1,234.50"]⟩, by decide,
      ⟨0, "Unit Price", none, none, some 1, some "Extension"⟩, by decide, by decide⟩


/-- C10: a section is a key of `get_section_totals` exactly when it occurs
in `section_list`, a row with that (stripped) title exists, and at least one
contractor contributes a present, coercible, non-zero extension value
there; otherwise the section is omitted entirely rather than mapped to an
empty result. -/
theorem C10_section_totals_keys (t : BidTable) (m : CMap) (sections : List String)
    (s : String) :
    s ∈ (get_section_totals t m sections).map Prod.fst ↔
      s ∈ sections ∧
        ∃ row, t.rows.find? (fun r => pyStrip (rowTitleStr t r) == s) = some row ∧
          ∃ c q, (c, q) ∈ contractorExtTotals row m := by
  have hiff : ∀ (l : List (String × ℚ)), l ≠ [] ↔ ∃ c q, (c, q) ∈ l := by
    intro l
    cases l with
    | nil => simp
    | cons p l' =>
      simp only [ne_eq, reduceCtorEq, not_false_eq_true, true_iff]
      exact ⟨p.1, p.2, List.mem_cons_self p l'⟩
  rw [get_section_totals, keys_section_totals_fold t m sections [] s]
  simp only [List.map_nil, List.not_mem_nil, false_or, hiff]

/-- C10 witness: the characterization at a one-row table whose single
contractor holds `"$5"` in its extension column. -/
theorem C10_section_totals_keys_witness :
    "S" ∈ (get_section_totals
        ⟨["Section Title", "Extension"], [⟨0, [some " S ", some "$5"]⟩]⟩
        [("Acme", ⟨0, "Unit Price", none, none, some 1, some "Extension"⟩)]
        ["S"]).map Prod.fst :=
  (C10_section_totals_keys _ _ ["S"] "S").mpr
    ⟨by decide, ⟨0, [some " S ", some "$5"]⟩, by decide, "Acme", 5, by decide⟩

/-! ## Claim theorems: structural failure and Validator -/

/-- C8: a document with fewer than 7 lines (too few to reach the fixed
header offset) makes the load fail with the structural error reported to
the caller, producing no rows, no contractor map and no section list
(`logic.py:18-27` returns `(None, None, None, [message])`). -/
theorem C8_short_file_structural_failure (filename : String) (lines : List String)
    (h : lines.length < 7) :
    load_bid_data filename lines =
      .failure ["File '" ++ filename ++ "' missing required header rows."] := by
  rw [load_bid_data, if_pos (by omega)]

/-- C8 witness: the failure at a concrete two-line document. -/
theorem C8_short_file_structural_failure_witness :
    load_bid_data "BidWorksheet.csv" ["a", "b"] =
      .failure ["File 'BidWorksheet.csv' missing required header rows."] :=
  C8_short_file_structural_failure "BidWorksheet.csv" ["a", "b"] (by decide)

/-- C1 (code bug): a one-row table whose unit-price and extension cells
hold the non-coercible "abc" produces NO parse error, because the
Validator reads `df.iloc[idx + 1]` — the row after the one it iterates —
and skips the last row entirely (`logic.py:89-90`); the claim (and the
spec's stated direct-row contract) requires one ParseError per failing
cell of the row itself. -/
theorem C1_validator_skips_failing_row :
    validateRows
        ⟨["Section Title", "Line Item", "Item Description", "Quantity", "UofM",
            "Unit Price", "Extension"],
          [⟨0, [none, some "1", some "Item", some "5", some "EA", some "abc",
            some "abc"]⟩]⟩
        (buildContractorMap
          ["Section Title", "Line Item", "Item Description", "Quantity", "UofM",
            "Unit Price", "Extension"]
          ["", "", "", "", "", "Acme Co", ""]) = [] ∧
    coerceNumeric "abc" = .failure "abc" := by
  exact ⟨by decide, by decide⟩
/-! ## Claim theorems: line items -/

/-- C7 counterexample: two rows in section "S" share the description
"Widget" AND the line item "1"; their unique keys coincide, so the item
map holds a single entry (the second row's prices win) — duplicate
descriptions within one section do NOT always yield distinct keys. -/
theorem C7_duplicate_desc_same_line_collide :
    get_line_items_by_section
        ⟨["Section Title", "Line Item", "Item Description", "Unit Price", "Section"],
          [⟨0, [none, some "1", some "Widget", some "10", some "S"]⟩,
           ⟨1, [none, some "1", some "Widget", some "20", some "S"]⟩]⟩
        [("Acme", ⟨3, "Unit Price", none, none, none, none⟩)] =
      ([("S", [("Widget (Line 1)", [("Acme", 20)])])],
       [("S", [("Widget [Line 1]", "Widget (Line 1)")])]) := by
  rfl

/-- C7 (amended): within a section, a key is present exactly when some row
with a present description and a non-empty unit-price set produces it
(rows without prices contribute nothing); keys of rows with equal stripped
descriptions but different line strings are distinct (same description AND
same line collide); a qualifying row's display name — the stripped
description, with the line appended exactly when the stripped description
occurs more than once among the section's raw descriptions — is a key of
the display map; and a section is a key of the result exactly when it
occurs in the Section column and its item map is non-empty. -/
theorem C7_line_items_spec (t : BidTable) (m : CMap) :
    (∀ (s k : String),
      (∃ v, (k, v) ∈ (itemsForSection t m s).1) ↔
        ∃ r, r ∈ sectionRows t s ∧
          ∃ d, namedCell t r "Item Description" = some d ∧
            k = rowUniqueKey t r d ∧ rowUnitPrices r m ≠ []) ∧
    (∀ (r1 r2 : BidRow) (d1 d2 : String), pyStrip d1 = pyStrip d2 →
      lineStrOf t r1 ≠ lineStrOf t r2 → rowUniqueKey t r1 d1 ≠ rowUniqueKey t r2 d2) ∧
    (∀ (s : String) (r : BidRow) (d : String), r ∈ sectionRows t s →
      namedCell t r "Item Description" = some d → rowUnitPrices r m ≠ [] →
      ∃ k, (rowDisplayName t s r d, k) ∈ (itemsForSection t m s).2) ∧
    (∀ s : String,
      (∃ im, (s, im) ∈ (get_line_items_by_section t m).1) ↔
        (some s ∈ t.rows.map (fun r => namedCell t r "Section") ∧
          (itemsForSection t m s).1 ≠ [])) := by
  refine ⟨?_, fun r1 r2 d1 d2 => rowUniqueKey_ne t r1 r2 d1 d2, ?_, ?_⟩
  · intro s k
    rw [itemsForSection, items_fold_keys t m s (sectionRows t s) ([], []) k]
    simp
  · intro s r d hmem hdesc hemp
    rw [itemsForSection]
    exact items_fold_display t m s (sectionRows t s) ([], []) r d hmem hdesc hemp
  · intro s
    rw [get_line_items_by_section,
      lineItems_fold_keys t m
        (uniqueVals (t.rows.map fun r => namedCell t r "Section")) ([], []) s]
    simp [mem_uniqueVals]

theorem C7_line_items_spec_witness :
    ∃ v, ("Widget (Line 1)", v) ∈
      (itemsForSection
        ⟨["Section Title", "Line Item", "Item Description", "Unit Price", "Section"],
          [⟨0, [none, some "1", some "Widget", some "10", some "S"]⟩]⟩
        [("Acme", ⟨3, "Unit Price", none, none, none, none⟩)] "S").1 :=
  ((C7_line_items_spec _ _).1 "S" "Widget (Line 1)").mpr
    ⟨⟨0, [none, some "1", some "Widget", some "10", some "S"]⟩, by decide, "Widget",
      by decide, by decide, by decide⟩

end BidCompare
